import Mathlib

/-!
# Shallow embedding of the gym-management service layer

This file embeds the Firestore service layer of the gym-management
application (`src/firebase/services.ts`) in Lean 4 and proves or refutes
the frozen specification claims about it.

Modelling conventions:

* The Firestore database is a record of lists of documents; a document id
  is a `Nat`.  `addDoc` appends a document with a caller-supplied fresh id,
  `updateDoc` maps over the list patching the matching document, and
  `deleteDoc` filters it out.
* JavaScript `Date` instants are modelled as `Int` milliseconds since the
  epoch (field `msPerDay` many per calendar day, UTC granularity); a
  date-only string such as a bill's `dueDate` is represented by the
  calendar-day index it denotes (`Int`).  `d.setHours(0,0,0,0)` followed by
  a comparison is day-index comparison; an unzeroed comparison is instant
  comparison.
* JavaScript `number` amounts are modelled as `Int` (no floating point is
  exercised by the claims).
* `Math.random()`-derived values are passed in as explicit arguments.
-/

/-- Milliseconds per calendar day. -/
def msPerDay : Int := 86400000

/-- Calendar-day index of an instant (floor division, UTC). -/
def dayOf (t : Int) : Int := Int.fdiv t msPerDay

/-- The midnight instant that a date-only string of day index `d` denotes
(`new Date("YYYY-MM-DD")` parses to midnight of that day). -/
def midnight (d : Int) : Int := d * msPerDay

/-- Member lifecycle status (`'Active' | 'Inactive' | 'Expired'`). -/
inductive MemberStatus
  | Active
  | Inactive
  | Expired
deriving DecidableEq, Repr

/-- Bill status (`'Pending' | 'Paid' | 'Overdue'`). -/
inductive BillStatus
  | Pending
  | Paid
  | Overdue
deriving DecidableEq, Repr

/-- Fee-package status (`'Active' | 'Expired' | 'Cancelled'`). -/
inductive PkgStatus
  | Active
  | Expired
  | Cancelled
deriving DecidableEq, Repr

/-- A `members` collection document (interface `Member`).  `startDate`,
`endDate` and `lastCheckIn` hold the day index denoted by the stored date
string; the Firestore bookkeeping timestamps `createdAt`/`updatedAt` are
outside the model. -/
structure Member where
  id : Nat
  firstName : String
  lastName : String
  email : String
  phone : String
  dateOfBirth : String
  gender : String
  address : String
  city : String
  state : String
  zipCode : String
  membershipType : String
  startDate : Int
  endDate : Int
  emergencyContactName : String
  emergencyContactPhone : String
  medicalConditions : String
  photoUrl : Option String
  status : MemberStatus
  dues : Int
  lastCheckIn : Option Int
deriving DecidableEq, Repr

/-- A `bills` collection document (interface `Bill`); `dueDate` and
`paymentDate` hold day indices. -/
structure Bill where
  id : Nat
  memberId : Nat
  memberName : String
  billNumber : String
  amount : Int
  description : String
  dueDate : Int
  status : BillStatus
  paymentDate : Option Int
  paymentMethod : Option String
deriving DecidableEq, Repr

/-- A `feePackages` collection document (interface `FeePackage`). -/
structure FeePackage where
  id : Nat
  memberId : Nat
  memberName : String
  packageType : String
  packageName : String
  amount : Int
  duration : Nat
  startDate : Int
  endDate : Int
  status : PkgStatus
deriving DecidableEq, Repr

/-- The collections touched by the member / billing / fee-package
services. -/
structure DB where
  members : List Member
  bills : List Bill
  feePackages : List FeePackage
deriving DecidableEq, Repr

/-- A `Partial<Member>` update payload covering the fields the modelled
call sites pass to `memberService.updateMember`. -/
structure MemberPatch where
  membershipType : Option String := none
  startDate : Option Int := none
  endDate : Option Int := none
  status : Option MemberStatus := none
  dues : Option Int := none

/-- Field-merge of an update payload into a document, as Firestore
`updateDoc` does. -/
def applyPatch (p : MemberPatch) (m : Member) : Member :=
  { m with
    membershipType := p.membershipType.getD m.membershipType
    startDate := p.startDate.getD m.startDate
    endDate := p.endDate.getD m.endDate
    status := p.status.getD m.status
    dues := p.dues.getD m.dues }

/-- `memberService.getMemberById`: scan the `members` collection for the
document with the given id. -/
def getMemberById (db : DB) (id : Nat) : Option Member :=
  db.members.find? (fun m => m.id == id)

/-- `memberService.updateMember`: `updateDoc` on the member document,
merging the provided fields. -/
def updateMember (db : DB) (id : Nat) (p : MemberPatch) : DB :=
  { db with members := db.members.map (fun m => if m.id == id then applyPatch p m else m) }

/-- `memberService.calculateStatus`: `new Date(endDate) < new Date()`
compares the instant the end-date string denotes against the current
instant — without zeroing the time of day on either side. -/
def calculateStatus (now : Int) (endInstant : Int) : MemberStatus :=
  if endInstant < now then MemberStatus.Expired else MemberStatus.Active

/-- `billService.createBill`: the bill's status is `Overdue` when the due
day is before today (both sides `setHours(0,0,0,0)`, hence day-index
comparison), else `Pending`; the bill is inserted (`addDoc` with fresh id
`newId`), then the owning member's `dues` is re-read and increased by the
bill amount when the member exists. -/
def createBill (today : Int) (db : DB) (newId : Nat) (memberId : Nat)
    (memberName billNumber : String) (amount : Int) (description : String)
    (dueDate : Int) : DB :=
  let status := if dueDate < today then BillStatus.Overdue else BillStatus.Pending
  let bill : Bill :=
    { id := newId, memberId := memberId, memberName := memberName,
      billNumber := billNumber, amount := amount, description := description,
      dueDate := dueDate, status := status, paymentDate := none, paymentMethod := none }
  let db1 : DB := { db with bills := db.bills ++ [bill] }
  match getMemberById db1 memberId with
  | some member => updateMember db1 memberId { dues := some (member.dues + amount) }
  | none => db1

/-- `billService.markBillAsPaid`: look the bill up by id (no-op when
absent); set status `Paid`, `paymentDate` = today's date string and the
payment method; then re-read the member and write
`dues = max(0, dues - amount)`. -/
def markBillAsPaid (today : Int) (db : DB) (billId : Nat) (paymentMethod : String) : DB :=
  match db.bills.find? (fun b => b.id == billId) with
  | none => db
  | some billData =>
    let db1 : DB :=
      { db with bills := db.bills.map (fun b =>
          if b.id == billId then
            { b with status := BillStatus.Paid, paymentDate := some today,
                     paymentMethod := some paymentMethod }
          else b) }
    match getMemberById db1 billData.memberId with
    | some member =>
        updateMember db1 billData.memberId
          { dues := some (max 0 (member.dues - billData.amount)) }
    | none => db1

/-- `billService.deleteBill`: look the bill up by id (no-op when absent);
delete it; when it was not `Paid`, re-read the member and write
`dues = max(0, dues - amount)`. -/
def deleteBill (db : DB) (billId : Nat) : DB :=
  match db.bills.find? (fun b => b.id == billId) with
  | none => db
  | some billData =>
    let db1 : DB := { db with bills := db.bills.filter (fun b => b.id != billId) }
    if billData.status ≠ BillStatus.Paid then
      match getMemberById db1 billData.memberId with
      | some member =>
          updateMember db1 billData.memberId
            { dues := some (max 0 (member.dues - billData.amount)) }
      | none => db1
    else db1

/-- Sum of the amounts of a member's bills whose status is `Pending` or
`Overdue`. -/
def unpaidSum (db : DB) (memberId : Nat) : Int :=
  ((db.bills.filter (fun b =>
      b.memberId == memberId &&
        (b.status == BillStatus.Pending || b.status == BillStatus.Overdue))).map
    (fun b => b.amount)).sum

/-- One call into `billService`: the three mutating operations.  `create`
carries the fresh document id `addDoc` would allocate and the caller-side
bill data; `pay` and `del` carry the target bill id. -/
inductive BillOp
  | create (today : Int) (newId : Nat) (memberId : Nat)
      (memberName billNumber : String) (amount : Int) (description : String)
      (dueDate : Int)
  | pay (today : Int) (billId : Nat) (paymentMethod : String)
  | del (billId : Nat)

/-- Execute one `billService` call. -/
def applyBillOp (db : DB) : BillOp → DB
  | .create t i mid mn bn a d dd => createBill t db i mid mn bn a d dd
  | .pay t b pm => markBillAsPaid t db b pm
  | .del b => deleteBill db b

/-- Execute a sequence of `billService` calls, left to right. -/
def applyBillOps (db : DB) : List BillOp → DB
  | [] => db
  | op :: ops => applyBillOps (applyBillOp db op) ops

/-- Side conditions under which one call is benign: a created bill has a
nonnegative amount and a genuinely fresh document id (as `addDoc`
guarantees), and `markBillAsPaid` is not re-applied to a bill that is
already `Paid`. -/
def opOk (db : DB) : BillOp → Prop
  | .create _ newId _ _ _ amount _ _ =>
      0 ≤ amount ∧ ∀ b ∈ db.bills, b.id ≠ newId
  | .pay _ billId _ => ∀ b ∈ db.bills, b.id = billId → b.status ≠ BillStatus.Paid
  | .del _ => True

/-- Every call of the sequence is benign in the state where it runs. -/
def opsOk (db : DB) : List BillOp → Prop
  | [] => True
  | op :: ops => opOk db op ∧ opsOk (applyBillOp db op) ops

/-- Document ids are pairwise distinct (Firestore guarantees this) and
every stored bill amount is nonnegative. -/
def WF (db : DB) : Prop :=
  db.bills.Pairwise (fun a b => a.id ≠ b.id) ∧
    db.members.Pairwise (fun a b => a.id ≠ b.id) ∧
    ∀ b ∈ db.bills, 0 ≤ b.amount

/-- The intended ledger invariant: every member's `dues` equals the sum of
that member's `Pending`/`Overdue` bill amounts. -/
def DuesInv (db : DB) : Prop :=
  ∀ m ∈ db.members, m.dues = unpaidSum db m.id

/-- A calendar date, month `1..12`. -/
structure Ymd where
  year : Int
  month : Nat
  day : Nat
deriving DecidableEq, Repr

/-- Leap-year rule of the proleptic Gregorian calendar (what JavaScript
`Date` uses). -/
def isLeap (y : Int) : Bool :=
  y % 4 == 0 && (y % 100 != 0 || y % 400 == 0)

/-- Number of days in a month. -/
def daysInMonth (y : Int) (m : Nat) : Nat :=
  if m = 2 then (if isLeap y then 29 else 28)
  else if m = 4 ∨ m = 6 ∨ m = 9 ∨ m = 11 then 30 else 31

/-- `feePackageService.calculateEndDate`: `end.setMonth(end.getMonth() +
duration)`.  JavaScript `setMonth` first normalises the (0-based) month
field with a year carry and then normalises day-of-month overflow by
rolling the excess days into the following month (Jan 31 + 1 month =
Mar 3); since the start day is at most 31 and every month has at least 28
days, at most one month is rolled. -/
def calculateEndDate (start : Ymd) (duration : Nat) : Ymd :=
  let m0 : Nat := (start.month - 1) + duration
  let y : Int := start.year + (m0 / 12 : Nat)
  let m : Nat := m0 % 12 + 1
  if start.day ≤ daysInMonth y m then ⟨y, m, start.day⟩
  else if m = 12 then ⟨y + 1, 1, start.day - daysInMonth y m⟩
  else ⟨y, m + 1, start.day - daysInMonth y m⟩

/-- `feePackageService.assignPackage`.  `now` is the current instant.
`endDate` is the day index denoted by the end-date string the code obtains
from `calculateEndDate(startDate, duration)` (string/day rendering of that
calendar computation is abstracted; `calculateEndDate` itself is modelled
above).  The package status compares day indices (both dates are
`setHours(0,0,0,0)`-zeroed); the member's new status comes from
`memberService.calculateStatus(endDate)`, which compares the end date's
midnight instant against `now` unzeroed.  The member update passes exactly
`membershipType`, `startDate`, `endDate`, `status`. -/
def assignPackage (now : Int) (db : DB) (newId : Nat) (memberId : Nat)
    (memberName packageType packageName : String) (amount : Int)
    (duration : Nat) (startDate : Int) (endDate : Int) : DB :=
  let todayDay := dayOf now
  let status : PkgStatus := if endDate < todayDay then PkgStatus.Expired else PkgStatus.Active
  let pkg : FeePackage :=
    { id := newId, memberId := memberId, memberName := memberName,
      packageType := packageType, packageName := packageName, amount := amount,
      duration := duration, startDate := startDate, endDate := endDate, status := status }
  let db1 : DB := { db with feePackages := db.feePackages ++ [pkg] }
  updateMember db1 memberId
    { membershipType := some packageType, startDate := some startDate,
      endDate := some endDate,
      status := some (calculateStatus now (midnight endDate)) }

/-- Account role (`'admin' | 'member' | 'user'`). -/
inductive AccountRole
  | admin
  | member
  | user
deriving DecidableEq, Repr

/-- An `accounts` collection document (interface `Account`); bookkeeping
timestamps are outside the model. -/
structure Account where
  id : Nat
  accountId : String
  firstName : String
  lastName : String
  email : String
  normalizedEmail : String
  password : String
  role : AccountRole
deriving DecidableEq, Repr

/-- The whitespace characters JavaScript `String.prototype.trim` removes,
at the ASCII granularity the application ever sees (space, tab, line feed,
carriage return). -/
def isWsChar (c : Char) : Bool :=
  c.toNat == 32 || c.toNat == 9 || c.toNat == 10 || c.toNat == 13

/-- `s.trim()` on the underlying character list: drop whitespace from both
ends. -/
def trimChars (l : List Char) : List Char :=
  List.rdropWhile isWsChar (List.dropWhile isWsChar l)

/-- `email.trim().toLowerCase()`; `Char.toLower` is exactly the ASCII
lowercase map `toLowerCase` applies to the characters in play. -/
def normalizeEmail (s : String) : String :=
  String.mk ((trimChars s.data).map Char.toLower)

/-- `ACCOUNT_PREFIX[role]`. -/
def prefixForRole : AccountRole → String
  | .admin => "ADM"
  | .member => "MEM"
  | .user => "USR"

/-- `Math.floor(Math.random() * 1_000_000).toString().padStart(6, '0')`
for a draw `r < 1_000_000`: the six decimal digits of `r`, zero-padded. -/
def sixDigits (r : Nat) : String :=
  String.mk [Nat.digitChar (r / 100000 % 10), Nat.digitChar (r / 10000 % 10),
             Nat.digitChar (r / 1000 % 10), Nat.digitChar (r / 100 % 10),
             Nat.digitChar (r / 10 % 10), Nat.digitChar (r % 10)]

/-- `accountService.generateAccountId`, with the `Math.random` draw `r`
made explicit. -/
def generateAccountId (role : AccountRole) (r : Nat) : String :=
  prefixForRole role ++ "-" ++ sixDigits r

/-- `accountService.createAccount`: normalise the email, fail when
`emailExists` (which re-normalises its argument and scans for a matching
`normalizedEmail`) finds a hit, else persist a new account whose stored
`email` and `normalizedEmail` are both the normalised form and whose
`accountId` is the generated one.  `freshId` is the id `addDoc`
allocates. -/
def createAccount (accounts : List Account) (freshId : Nat) (r : Nat)
    (firstName lastName email password : String) (role : AccountRole) :
    Except String (List Account × String) :=
  let normalizedEmail := normalizeEmail email
  if (accounts.find? (fun a => a.normalizedEmail == normalizeEmail normalizedEmail)).isSome then
    Except.error "An account with this email already exists."
  else
    let accountId := generateAccountId role r
    Except.ok
      (accounts ++
        [{ id := freshId, accountId := accountId, firstName := firstName,
           lastName := lastName, email := normalizedEmail,
           normalizedEmail := normalizedEmail, password := password, role := role }],
       accountId)

/-- A `Partial<...>` update payload for `accountService.updateAccount`
(`undefined` = `none`). -/
structure AccountUpdates where
  firstName : Option String := none
  lastName : Option String := none
  password : Option String := none
  role : Option AccountRole := none
  email : Option String := none

/-- The net effect on the stored document of the payload `updateAccount`
builds and merges with `updateDoc`: first/last name when provided;
password only when provided and non-empty; role when provided; email (and
`normalizedEmail`) as the normalised form when provided; everything else
kept. -/
def applyAccountUpdates (u : AccountUpdates) (a : Account) : Account :=
  { a with
    firstName := u.firstName.getD a.firstName,
    lastName := u.lastName.getD a.lastName,
    password := match u.password with
      | some p => if p ≠ "" then p else a.password
      | none => a.password,
    role := u.role.getD a.role,
    email := (u.email.map normalizeEmail).getD a.email,
    normalizedEmail := (u.email.map normalizeEmail).getD a.normalizedEmail }

/-- `accountService.updateAccount`: when an email change is requested,
look for an account already holding the normalised email and fail when it
is a different account; then `updateDoc` the payload onto the document
(Firestore rejects an update of a missing document, modelled as an
error). -/
def updateAccount (accounts : List Account) (id : Nat) (u : AccountUpdates) :
    Except String (List Account) :=
  let emailCheck : Except String Unit :=
    match u.email with
    | some e =>
        match accounts.find? (fun a => a.normalizedEmail == normalizeEmail e) with
        | some existing =>
            if existing.id ≠ id then
              Except.error "An account with this email already exists."
            else Except.ok ()
        | none => Except.ok ()
    | none => Except.ok ()
  match emailCheck with
  | Except.error e => Except.error e
  | Except.ok _ =>
      if (accounts.find? (fun a => a.id == id)).isSome then
        Except.ok (accounts.map (fun a => if a.id == id then applyAccountUpdates u a else a))
      else Except.error "No document to update"

/-- A `supplements` collection document (interface `Supplement`). -/
structure Supplement where
  id : Nat
  name : String
  brand : String
  category : String
  description : String
  price : Int
  stock : Int
deriving DecidableEq, Repr

/-- One line item of a supplement order. -/
structure OrderItem where
  supplementId : Nat
  supplementName : String
  quantity : Int
  price : Int
deriving DecidableEq, Repr

/-- Supplement-order status (`'Pending' | 'Completed' | 'Cancelled'`). -/
inductive OrderStatus
  | Pending
  | Completed
  | Cancelled
deriving DecidableEq, Repr

/-- A `supplementOrders` collection document. -/
structure SupplementOrder where
  id : Nat
  memberId : Nat
  memberName : String
  items : List OrderItem
  totalAmount : Int
  status : OrderStatus
  orderDate : Int
  paymentMethod : String
deriving DecidableEq, Repr

/-- The collections the supplement service touches. -/
structure SupDB where
  supplements : List Supplement
  orders : List SupplementOrder
deriving DecidableEq, Repr

/-- `supplementService.getSupplementById` over a supplement list. -/
def findSupplement (sups : List Supplement) (id : Nat) : Option Supplement :=
  sups.find? (fun s => s.id == id)

/-- One iteration of `createOrder`'s stock loop: re-read the current
stock of the item's supplement and write `max(0, stock - quantity)`;
skip silently when the supplement does not exist. -/
def orderStep (sups : List Supplement) (item : OrderItem) : List Supplement :=
  match findSupplement sups item.supplementId with
  | some s =>
      sups.map (fun t =>
        if t.id == item.supplementId then
          { t with stock := max 0 (s.stock - item.quantity) }
        else t)
  | none => sups

/-- `supplementService.createOrder`: decrement (clamped) the stock of each
line item in order, then insert the order with status `Completed`.
`newId` is the id `addDoc` allocates. -/
def createOrder (db : SupDB) (newId : Nat) (memberId : Nat) (memberName : String)
    (items : List OrderItem) (totalAmount : Int) (orderDate : Int)
    (paymentMethod : String) : SupDB :=
  let sups := items.foldl orderStep db.supplements
  { supplements := sups,
    orders := db.orders ++
      [{ id := newId, memberId := memberId, memberName := memberName,
         items := items, totalAmount := totalAmount, status := OrderStatus.Completed,
         orderDate := orderDate, paymentMethod := paymentMethod }] }

/-! ## Generic list lemmas about id-keyed document collections -/

/-- `find?` on a cons whose head has the sought id. -/
theorem find?_id_cons_true {α : Type} (idf : α → Nat) (i : Nat) (a : α) (t : List α)
    (h : idf a = i) : (a :: t).find? (fun x => idf x == i) = some a := by
  simp [List.find?_cons, h]

/-- `find?` on a cons whose head does not have the sought id. -/
theorem find?_id_cons_false {α : Type} (idf : α → Nat) (i : Nat) (a : α) (t : List α)
    (h : ¬ idf a = i) : (a :: t).find? (fun x => idf x == i) = t.find? (fun x => idf x == i) := by
  simp [List.find?_cons, h]

/-- Patching the document with id `i` moves through `find?` for id `i`,
provided the patch preserves the id. -/
theorem find?_map_update {α : Type} (idf : α → Nat) (f : α → α)
    (hf : ∀ x, idf (f x) = idf x) (i : Nat) (l : List α) :
    (l.map (fun x => if idf x == i then f x else x)).find? (fun x => idf x == i)
      = (l.find? (fun x => idf x == i)).map f := by
  induction l with
  | nil => rfl
  | cons h t ih =>
    by_cases hh : idf h = i
    · have e1 : (if idf h == i then f h else h) = f h :=
        if_pos (beq_iff_eq.mpr hh)
      rw [List.map_cons, e1,
        find?_id_cons_true idf i (f h) (t.map (fun x => if idf x == i then f x else x))
          ((hf h).trans hh),
        find?_id_cons_true idf i h t hh]
      rfl
    · have e1 : (if idf h == i then f h else h) = h :=
        if_neg (by simpa using hh)
      rw [List.map_cons, e1,
        find?_id_cons_false idf i h (t.map (fun x => if idf x == i then f x else x)) hh,
        find?_id_cons_false idf i h t hh]
      exact ih

/-- Patching the document with id `i` leaves `find?` for a different id
`j` unchanged, provided the patch preserves the id. -/
theorem find?_map_update_ne {α : Type} (idf : α → Nat) (f : α → α)
    (hf : ∀ x, idf (f x) = idf x) (i j : Nat) (hij : j ≠ i) (l : List α) :
    (l.map (fun x => if idf x == i then f x else x)).find? (fun x => idf x == j)
      = l.find? (fun x => idf x == j) := by
  induction l with
  | nil => rfl
  | cons h t ih =>
    by_cases hh : idf h = i
    · have hhj : ¬ idf h = j := fun hc => hij (hc ▸ hh)
      have e1 : (if idf h == i then f h else h) = f h :=
        if_pos (beq_iff_eq.mpr hh)
      rw [List.map_cons, e1,
        find?_id_cons_false idf j (f h) (t.map (fun x => if idf x == i then f x else x))
          (by rw [hf h]; exact hhj),
        find?_id_cons_false idf j h t hhj]
      exact ih
    · have e1 : (if idf h == i then f h else h) = h :=
        if_neg (by simpa using hh)
      by_cases hj : idf h = j
      · rw [List.map_cons, e1,
          find?_id_cons_true idf j h (t.map (fun x => if idf x == i then f x else x)) hj,
          find?_id_cons_true idf j h t hj]
      · rw [List.map_cons, e1,
          find?_id_cons_false idf j h (t.map (fun x => if idf x == i then f x else x)) hj,
          find?_id_cons_false idf j h t hj]
        exact ih

/-- In a list of pairwise-distinct ids, any member carrying the id that
`find?` found is the found document itself. -/
theorem mem_eq_of_find?_pairwise {α : Type} (idf : α → Nat) {l : List α}
    (hp : l.Pairwise (fun a b => idf a ≠ idf b)) {i : Nat} {m : α}
    (hfind : l.find? (fun y => idf y == i) = some m) {x : α} (hx : x ∈ l)
    (hxi : idf x = i) : x = m := by
  induction l with
  | nil => cases hx
  | cons h t ih =>
    rcases List.pairwise_cons.mp hp with ⟨hh, ht⟩
    by_cases hhi : idf h = i
    · rw [find?_id_cons_true idf i h t hhi] at hfind
      cases hfind
      rcases List.mem_cons.mp hx with hx | hx
      · exact hx
      · exact absurd (hxi.trans hhi.symm) (fun hc => hh x hx hc.symm)
    · rw [find?_id_cons_false idf i h t hhi] at hfind
      rcases List.mem_cons.mp hx with hx | hx
      · exact absurd (hx ▸ hxi) hhi
      · exact ih ht hfind hx

/-- Replacing `g` by `g'` under a pointwise sum changes the total by the
difference at the unique document with id `i`. -/
theorem sum_map_congr_except {α : Type} (idf : α → Nat) (i : Nat) {l : List α}
    (hp : l.Pairwise (fun a b => idf a ≠ idf b)) {bd : α}
    (hfind : l.find? (fun y => idf y == i) = some bd)
    (g g' : α → Int) (hg : ∀ x, idf x ≠ i → g' x = g x) :
    (l.map g').sum = (l.map g).sum - g bd + g' bd := by
  induction l with
  | nil => cases hfind
  | cons h t ih =>
    rcases List.pairwise_cons.mp hp with ⟨hh, ht⟩
    by_cases hhi : idf h = i
    · rw [find?_id_cons_true idf i h t hhi] at hfind
      cases hfind
      have htail : t.map g' = t.map g := by
        apply List.map_congr_left
        intro x hx
        exact hg x (fun hc => (hh x hx) (hhi.trans hc.symm))
      simp only [List.map_cons, List.sum_cons, htail]
      ring
    · rw [find?_id_cons_false idf i h t hhi] at hfind
      simp only [List.map_cons, List.sum_cons, hg h hhi, ih ht hfind]
      ring

/-- Filtering out the unique document with id `i` removes exactly its
contribution from a pointwise sum. -/
theorem sum_map_filter_out {α : Type} (idf : α → Nat) (i : Nat) {l : List α}
    (hp : l.Pairwise (fun a b => idf a ≠ idf b)) {bd : α}
    (hfind : l.find? (fun y => idf y == i) = some bd) (g : α → Int) :
    ((l.filter (fun x => idf x != i)).map g).sum = (l.map g).sum - g bd := by
  induction l with
  | nil => cases hfind
  | cons h t ih =>
    rcases List.pairwise_cons.mp hp with ⟨hh, ht⟩
    by_cases hhi : idf h = i
    · rw [find?_id_cons_true idf i h t hhi] at hfind
      cases hfind
      have htail : t.filter (fun x => idf x != i) = t := by
        apply List.filter_eq_self.mpr
        intro x hx
        simpa using fun hc => (hh x hx) (hhi.trans hc.symm)
      simp only [List.filter_cons, hhi]
      simp [htail]
    · rw [find?_id_cons_false idf i h t hhi] at hfind
      have hb : (idf h != i) = true := by simpa using hhi
      simp only [List.filter_cons, hb, if_pos, List.map_cons, List.sum_cons, ih ht hfind]
      ring

/-! ## Billing ledger lemmas -/

/-- The contribution of one bill to a member's unpaid sum. -/
def billContrib (j : Nat) (b : Bill) : Int :=
  if b.memberId == j && (b.status == BillStatus.Pending || b.status == BillStatus.Overdue)
  then b.amount else 0

theorem unpaidSum_eq_sum_contrib (db : DB) (j : Nat) :
    unpaidSum db j = (db.bills.map (billContrib j)).sum := by
  show ((db.bills.filter _).map _).sum = _
  induction db.bills with
  | nil => rfl
  | cons b t ih =>
    by_cases hc : (b.memberId == j &&
        (b.status == BillStatus.Pending || b.status == BillStatus.Overdue)) = true
    · simp only [List.filter_cons, hc, if_pos, List.map_cons, List.sum_cons, ih, billContrib]
    · have hc' : (b.memberId == j &&
          (b.status == BillStatus.Pending || b.status == BillStatus.Overdue)) = false :=
        Bool.not_eq_true _ ▸ (by simpa using hc)
      simp only [List.filter_cons, hc', Bool.false_eq_true, if_false, ih, List.map_cons,
        List.sum_cons, billContrib]
      simp

theorem billContrib_nonneg (j : Nat) (b : Bill) (hb : 0 ≤ b.amount) :
    0 ≤ billContrib j b := by
  unfold billContrib
  split
  · exact hb
  · exact le_refl 0

theorem billContrib_ne (j : Nat) (b : Bill) (h : b.memberId ≠ j) :
    billContrib j b = 0 := by
  simp [billContrib, h]

theorem billContrib_self_unpaid (j : Nat) (b : Bill) (hm : b.memberId = j)
    (hs : b.status ≠ BillStatus.Paid) : billContrib j b = b.amount := by
  cases h : b.status <;> simp_all [billContrib]

@[simp] theorem unpaidSum_updateMember (db : DB) (i : Nat) (p : MemberPatch) (j : Nat) :
    unpaidSum (updateMember db i p) j = unpaidSum db j := rfl

@[simp] theorem applyPatch_id (p : MemberPatch) (m : Member) : (applyPatch p m).id = m.id := rfl

theorem getMemberById_updateMember (db : DB) (i : Nat) (p : MemberPatch) :
    getMemberById (updateMember db i p) i = (getMemberById db i).map (applyPatch p) :=
  find?_map_update Member.id (applyPatch p) (fun _ => rfl) i db.members

theorem getMemberById_updateMember_ne (db : DB) (i j : Nat) (p : MemberPatch) (hij : j ≠ i) :
    getMemberById (updateMember db i p) j = getMemberById db j :=
  find?_map_update_ne Member.id (applyPatch p) (fun _ => rfl) i j hij db.members

theorem WF_updateMember (db : DB) (i : Nat) (p : MemberPatch) (hwf : WF db) :
    WF (updateMember db i p) := by
  obtain ⟨hb, hm, ha⟩ := hwf
  refine ⟨hb, ?_, ha⟩
  simp only [updateMember]
  rw [List.pairwise_map]
  apply hm.imp_of_mem
  intro a b _ _ hab
  by_cases h1 : a.id = i <;> by_cases h2 : b.id = i <;>
    simp_all [applyPatch]

theorem DuesInv_updateMember_dues (db1 : DB) (mid : Nat) (v : Int)
    (h1 : ∀ m ∈ db1.members, m.id ≠ mid → m.dues = unpaidSum db1 m.id)
    (h2 : v = unpaidSum db1 mid) :
    DuesInv (updateMember db1 mid { dues := some v }) := by
  intro m' hm'
  simp only [updateMember] at hm'
  rcases List.mem_map.mp hm' with ⟨m0, hm0, rfl⟩
  by_cases h : m0.id = mid
  · have : (if m0.id == mid then applyPatch { dues := some v } m0 else m0) =
        { m0 with dues := v } := by
      rw [if_pos (beq_iff_eq.mpr h)]
      simp [applyPatch]
    rw [this]
    simpa [h] using h2
  · have : (if m0.id == mid then applyPatch { dues := some v } m0 else m0) = m0 :=
      if_neg (by simpa using h)
    rw [this]
    simpa using h1 m0 hm0 h

theorem billContrib_of_paid (j : Nat) (b : Bill) (hst : b.status = BillStatus.Paid) :
    billContrib j b = 0 := by
  simp [billContrib, hst]

theorem unpaidSum_nonneg (db : DB) (j : Nat) (ha : ∀ b ∈ db.bills, 0 ≤ b.amount) :
    0 ≤ unpaidSum db j := by
  rw [unpaidSum_eq_sum_contrib]
  apply List.sum_nonneg
  intro x hx
  rcases List.mem_map.mp hx with ⟨b, hb, rfl⟩
  exact billContrib_nonneg j b (ha b hb)

theorem unpaidSum_append_bill (db : DB) (bill : Bill) (j : Nat) :
    unpaidSum { db with bills := db.bills ++ [bill] } j
      = unpaidSum db j + billContrib j bill := by
  rw [unpaidSum_eq_sum_contrib, unpaidSum_eq_sum_contrib]
  simp

/-- Effect of `markBillAsPaid`'s bill update on any member's unpaid sum. -/
theorem unpaidSum_mark (db : DB) (billId : Nat) (today : Int) (pm : String) (j : Nat)
    (hb : db.bills.Pairwise (fun a b => a.id ≠ b.id)) {bd : Bill}
    (hf : db.bills.find? (fun b => b.id == billId) = some bd) :
    unpaidSum { db with bills := db.bills.map (fun b =>
        if b.id == billId then
          { b with status := BillStatus.Paid, paymentDate := some today,
                   paymentMethod := some pm }
        else b) } j
      = unpaidSum db j - billContrib j bd := by
  rw [unpaidSum_eq_sum_contrib, unpaidSum_eq_sum_contrib]
  show ((db.bills.map _).map _).sum = _
  rw [List.map_map]
  have hbdid : bd.id = billId := by simpa using List.find?_some hf
  have := sum_map_congr_except Bill.id billId hb hf (billContrib j)
    (billContrib j ∘ (fun b =>
        if b.id == billId then
          { b with status := BillStatus.Paid, paymentDate := some today,
                   paymentMethod := some pm }
        else b))
    (by
      intro x hx
      simp only [Function.comp_apply]
      rw [if_neg (by simpa using hx)])
  rw [this]
  have : (billContrib j ∘ (fun b =>
      if b.id == billId then
        { b with status := BillStatus.Paid, paymentDate := some today,
                 paymentMethod := some pm }
      else b)) bd = 0 := by
    simp only [Function.comp_apply]
    rw [if_pos (beq_iff_eq.mpr hbdid)]
    exact billContrib_of_paid j _ rfl
  rw [this]
  ring

/-- Effect of `deleteBill`'s document removal on any member's unpaid sum. -/
theorem unpaidSum_delete (db : DB) (billId : Nat) (j : Nat)
    (hb : db.bills.Pairwise (fun a b => a.id ≠ b.id)) {bd : Bill}
    (hf : db.bills.find? (fun b => b.id == billId) = some bd) :
    unpaidSum { db with bills := db.bills.filter (fun b => b.id != billId) } j
      = unpaidSum db j - billContrib j bd := by
  rw [unpaidSum_eq_sum_contrib, unpaidSum_eq_sum_contrib]
  exact sum_map_filter_out Bill.id billId hb hf (billContrib j)

/-- `createBill` with the constructed bill abstracted (proof helper). -/
def createBillCore (db : DB) (bill : Bill) : DB :=
  let db1 : DB := { db with bills := db.bills ++ [bill] }
  match getMemberById db1 bill.memberId with
  | some member => updateMember db1 bill.memberId { dues := some (member.dues + bill.amount) }
  | none => db1

theorem createBill_eq_core (today : Int) (db : DB) (newId memberId : Nat)
    (mn bn : String) (amount : Int) (d : String) (dueDate : Int) :
    createBill today db newId memberId mn bn amount d dueDate
      = createBillCore db
          { id := newId, memberId := memberId, memberName := mn, billNumber := bn,
            amount := amount, description := d, dueDate := dueDate,
            status := if dueDate < today then BillStatus.Overdue else BillStatus.Pending,
            paymentDate := none, paymentMethod := none } := rfl

theorem createBillCore_preserves (db : DB) (bill : Bill)
    (hwf : WF db) (hinv : DuesInv db) (hamt : 0 ≤ bill.amount)
    (hfresh : ∀ b ∈ db.bills, b.id ≠ bill.id)
    (hst : bill.status ≠ BillStatus.Paid) :
    WF (createBillCore db bill) ∧ DuesInv (createBillCore db bill) := by
  obtain ⟨hb, hm, ha⟩ := hwf
  have hwf1 : WF { db with bills := db.bills ++ [bill] } := by
    refine ⟨?_, hm, ?_⟩
    · rw [List.pairwise_append]
      exact ⟨hb, List.pairwise_singleton _ _,
        fun a hA b hB => by rcases List.mem_singleton.mp hB with rfl; exact hfresh a hA⟩
    · intro b hbmem
      rcases List.mem_append.mp hbmem with h | h
      · exact ha b h
      · rcases List.mem_singleton.mp h with rfl; exact hamt
  unfold createBillCore
  dsimp only
  cases hfind : getMemberById { db with bills := db.bills ++ [bill] } bill.memberId with
  | none =>
      refine ⟨hwf1, ?_⟩
      intro m hmem
      have hne : m.id ≠ bill.memberId := by
        have := List.find?_eq_none.mp hfind m hmem
        simpa using this
      rw [unpaidSum_append_bill, billContrib_ne _ _ (fun hc => hne hc.symm), add_zero]
      exact hinv m hmem
  | some member =>
      have hmemmem : member ∈ db.members := List.mem_of_find?_eq_some hfind
      have hmemid : member.id = bill.memberId := by simpa using List.find?_some hfind
      refine ⟨WF_updateMember _ _ _ hwf1, ?_⟩
      apply DuesInv_updateMember_dues
      · intro m hmem hne
        rw [unpaidSum_append_bill, billContrib_ne _ _ (fun hc => hne hc.symm), add_zero]
        exact hinv m hmem
      · rw [unpaidSum_append_bill,
          billContrib_self_unpaid bill.memberId bill rfl hst,
          hinv member hmemmem, hmemid]

theorem markBillAsPaid_preserves (today : Int) (db : DB) (billId : Nat) (pm : String)
    (hwf : WF db) (hinv : DuesInv db)
    (hok : ∀ b ∈ db.bills, b.id = billId → b.status ≠ BillStatus.Paid) :
    WF (markBillAsPaid today db billId pm) ∧ DuesInv (markBillAsPaid today db billId pm) := by
  obtain ⟨hb, hm, ha⟩ := hwf
  unfold markBillAsPaid
  cases hf : db.bills.find? (fun b => b.id == billId) with
  | none => exact ⟨⟨hb, hm, ha⟩, hinv⟩
  | some bd =>
    dsimp only
    have hbdmem : bd ∈ db.bills := List.mem_of_find?_eq_some hf
    have hbdid : bd.id = billId := by simpa using List.find?_some hf
    have hbdst : bd.status ≠ BillStatus.Paid := hok bd hbdmem hbdid
    have hwf1 : WF { db with bills := db.bills.map (fun b =>
        if b.id == billId then
          { b with status := BillStatus.Paid, paymentDate := some today,
                   paymentMethod := some pm }
        else b) } := by
      refine ⟨?_, hm, ?_⟩
      · rw [List.pairwise_map]
        apply hb.imp_of_mem
        intro a c _ _ hab
        by_cases h1 : a.id = billId <;> by_cases h2 : c.id = billId <;> simp_all
      · intro b hbmem
        rcases List.mem_map.mp hbmem with ⟨b0, hb0, rfl⟩
        by_cases h1 : b0.id = billId <;> simp_all [ha b0 hb0]
    have hsum : ∀ j, unpaidSum { db with bills := db.bills.map (fun b =>
        if b.id == billId then
          { b with status := BillStatus.Paid, paymentDate := some today,
                   paymentMethod := some pm }
        else b) } j = unpaidSum db j - billContrib j bd :=
      fun j => unpaidSum_mark db billId today pm j hb hf
    cases hfm : getMemberById { db with bills := db.bills.map (fun b =>
        if b.id == billId then
          { b with status := BillStatus.Paid, paymentDate := some today,
                   paymentMethod := some pm }
        else b) } bd.memberId with
    | none =>
        refine ⟨hwf1, ?_⟩
        intro m hmem
        have hne : m.id ≠ bd.memberId := by
          have := List.find?_eq_none.mp hfm m hmem
          simpa using this
        rw [hsum, billContrib_ne _ _ (fun hc => hne hc.symm), sub_zero]
        exact hinv m hmem
    | some member =>
        have hmemmem : member ∈ db.members := List.mem_of_find?_eq_some hfm
        have hmemid : member.id = bd.memberId := by simpa using List.find?_some hfm
        refine ⟨WF_updateMember _ _ _ hwf1, ?_⟩
        apply DuesInv_updateMember_dues
        · intro m hmem hne
          rw [hsum, billContrib_ne _ _ (fun hc => hne hc.symm), sub_zero]
          exact hinv m hmem
        · rw [hsum, billContrib_self_unpaid bd.memberId bd rfl hbdst]
          have hdues : member.dues = unpaidSum db bd.memberId := by
            rw [hinv member hmemmem, hmemid]
          rw [hdues]
          rcases hwf1 with ⟨_, _, ha1⟩
          have hnn : 0 ≤ unpaidSum db bd.memberId - bd.amount := by
            have := unpaidSum_nonneg { db with bills := db.bills.map (fun b =>
              if b.id == billId then
                { b with status := BillStatus.Paid, paymentDate := some today,
                         paymentMethod := some pm }
              else b) } bd.memberId ha1
            rw [hsum, billContrib_self_unpaid bd.memberId bd rfl hbdst] at this
            exact this
          exact max_eq_right hnn

theorem deleteBill_preserves (db : DB) (billId : Nat)
    (hwf : WF db) (hinv : DuesInv db) :
    WF (deleteBill db billId) ∧ DuesInv (deleteBill db billId) := by
  obtain ⟨hb, hm, ha⟩ := hwf
  unfold deleteBill
  cases hf : db.bills.find? (fun b => b.id == billId) with
  | none => exact ⟨⟨hb, hm, ha⟩, hinv⟩
  | some bd =>
    dsimp only
    have hbdmem : bd ∈ db.bills := List.mem_of_find?_eq_some hf
    have hbdid : bd.id = billId := by simpa using List.find?_some hf
    have hwf1 : WF { db with bills := db.bills.filter (fun b => b.id != billId) } := by
      refine ⟨List.Pairwise.sublist (List.filter_sublist _) hb, hm, ?_⟩
      intro b hbmem
      exact ha b (List.mem_of_mem_filter hbmem)
    have hsum : ∀ j, unpaidSum { db with bills := db.bills.filter (fun b => b.id != billId) } j
        = unpaidSum db j - billContrib j bd :=
      fun j => unpaidSum_delete db billId j hb hf
    by_cases hst : bd.status = BillStatus.Paid
    · rw [if_neg (by simpa using hst)]
      refine ⟨hwf1, ?_⟩
      intro m hmem
      rw [hsum, billContrib_of_paid _ _ hst, sub_zero]
      exact hinv m hmem
    · rw [if_pos hst]
      cases hfm : getMemberById { db with bills := db.bills.filter (fun b => b.id != billId) }
          bd.memberId with
      | none =>
          refine ⟨hwf1, ?_⟩
          intro m hmem
          have hne : m.id ≠ bd.memberId := by
            have := List.find?_eq_none.mp hfm m hmem
            simpa using this
          rw [hsum, billContrib_ne _ _ (fun hc => hne hc.symm), sub_zero]
          exact hinv m hmem
      | some member =>
          have hmemmem : member ∈ db.members := List.mem_of_find?_eq_some hfm
          have hmemid : member.id = bd.memberId := by simpa using List.find?_some hfm
          refine ⟨WF_updateMember _ _ _ hwf1, ?_⟩
          apply DuesInv_updateMember_dues
          · intro m hmem hne
            rw [hsum, billContrib_ne _ _ (fun hc => hne hc.symm), sub_zero]
            exact hinv m hmem
          · rw [hsum, billContrib_self_unpaid bd.memberId bd rfl hst]
            have hdues : member.dues = unpaidSum db bd.memberId := by
              rw [hinv member hmemmem, hmemid]
            rw [hdues]
            rcases hwf1 with ⟨_, _, ha1⟩
            have hnn : 0 ≤ unpaidSum db bd.memberId - bd.amount := by
              have := unpaidSum_nonneg
                { db with bills := db.bills.filter (fun b => b.id != billId) } bd.memberId ha1
              rw [hsum, billContrib_self_unpaid bd.memberId bd rfl hst] at this
              exact this
            exact max_eq_right hnn

theorem applyBillOp_preserves (db : DB) (op : BillOp)
    (hwf : WF db) (hinv : DuesInv db) (hok : opOk db op) :
    WF (applyBillOp db op) ∧ DuesInv (applyBillOp db op) := by
  cases op with
  | create t i mid mn bn a d dd =>
      rw [applyBillOp, createBill_eq_core]
      exact createBillCore_preserves db _ hwf hinv hok.1 hok.2
        (by by_cases hlt : dd < t <;> simp [hlt])
  | pay t b pm => exact markBillAsPaid_preserves t db b pm hwf hinv hok
  | del b => exact deleteBill_preserves db b hwf hinv

theorem applyBillOps_preserves (ops : List BillOp) (db : DB)
    (hwf : WF db) (hinv : DuesInv db) (hok : opsOk db ops) :
    WF (applyBillOps db ops) ∧ DuesInv (applyBillOps db ops) := by
  induction ops generalizing db with
  | nil => exact ⟨hwf, hinv⟩
  | cons op ops ih =>
      obtain ⟨h1, h2⟩ := applyBillOp_preserves db op hwf hinv hok.1
      exact ih (applyBillOp db op) h1 h2 hok.2

/-! ## Concrete fixtures for counterexamples and witnesses -/

/-- A member record with the given id and dues and empty profile fields. -/
def mkMember (id : Nat) (dues : Int) : Member :=
  { id := id, firstName := "", lastName := "", email := "", phone := "",
    dateOfBirth := "", gender := "", address := "", city := "", state := "",
    zipCode := "", membershipType := "", startDate := 0, endDate := 0,
    emergencyContactName := "", emergencyContactPhone := "",
    medicalConditions := "", photoUrl := none, status := MemberStatus.Active,
    dues := dues, lastCheckIn := none }

/-- A bill record with the given key fields and empty text fields. -/
def mkBill (id memberId : Nat) (amount : Int) (dueDate : Int) (status : BillStatus) : Bill :=
  { id := id, memberId := memberId, memberName := "", billNumber := "",
    amount := amount, description := "", dueDate := dueDate, status := status,
    paymentDate := none, paymentMethod := none }

/-- Initial state for the C1 scenarios: one member with id 0 and dues 0,
no bills. -/
def c1Db : DB := ⟨[mkMember 0 0], [], []⟩

/-- Two bills of 5 each for member 0, then `markBillAsPaid` is called
twice on the same bill — a sequence of sequential `billService` calls. -/
def c1Ops : List BillOp :=
  [BillOp.create 10 1 0 "" "" 5 "" 20, BillOp.create 10 2 0 "" "" 5 "" 20,
   BillOp.pay 10 1 "Cash", BillOp.pay 10 1 "Cash"]

/-- A benign sequence for the witness: two bills, one paid once, the
other deleted. -/
def c1OkOps : List BillOp :=
  [BillOp.create 10 1 0 "" "" 5 "" 20, BillOp.create 10 2 0 "" "" 7 "" 5,
   BillOp.pay 10 1 "Cash", BillOp.del 2]

/-- C1 (counterexample): after the sequential call sequence `c1Ops`
(create two bills of 5, then mark bill 1 paid twice) the member's dues are
0 while the sum of the member's `Pending`/`Overdue` bill amounts is 5 —
the claimed invariant does not hold after every sequence of
`createBill`/`markBillAsPaid`/`deleteBill` calls. -/
theorem C1_counterexample :
    (getMemberById (applyBillOps c1Db c1Ops) 0).map Member.dues = some 0 ∧
    unpaidSum (applyBillOps c1Db c1Ops) 0 = 5 ∧
    (getMemberById (applyBillOps c1Db c1Ops) 0).map Member.dues ≠
      some (unpaidSum (applyBillOps c1Db c1Ops) 0) := by
  refine ⟨by decide, by decide, by decide⟩

/-- C1 (amended): after any sequence of sequential
`createBill`/`markBillAsPaid`/`deleteBill` calls in which every created
bill has a nonnegative amount and a fresh document id and
`markBillAsPaid` is never applied to a bill that is already `Paid`,
starting from a well-formed state satisfying the invariant, every
member's `dues` equals the sum of that member's bills with status
`Pending` or `Overdue`. -/
theorem C1_dues_invariant (db : DB) (ops : List BillOp)
    (hwf : WF db) (hinv : DuesInv db) (hok : opsOk db ops) :
    ∀ m ∈ (applyBillOps db ops).members,
      m.dues = unpaidSum (applyBillOps db ops) m.id :=
  (applyBillOps_preserves ops db hwf hinv hok).2

/-- Witness for C1: the amended invariant instantiated on the concrete
benign sequence `c1OkOps`, evaluated at the resulting member record. -/
theorem C1_dues_invariant_witness :
    (mkMember 0 0).dues = unpaidSum (applyBillOps c1Db c1OkOps) (mkMember 0 0).id :=
  C1_dues_invariant c1Db c1OkOps
    ⟨by decide, by decide, by decide⟩
    (by intro m hm; cases List.mem_singleton.mp hm; decide)
    ⟨⟨by decide, by decide⟩, ⟨by decide, by decide⟩, by unfold opOk; decide, trivial, trivial⟩
    (mkMember 0 0) (by decide)

/-- C2: for every `billService.createBill` call on an existing member, the
stored bill's status is `Overdue` exactly when the due date is strictly
before today at calendar-day granularity (`Pending` otherwise), and the
owning member's `dues` is increased by exactly the bill's amount. -/
theorem C2_createBill_status_and_dues (today : Int) (db : DB) (newId memberId : Nat)
    (mn bn : String) (amount : Int) (d : String) (dueDate : Int)
    (m : Member) (hm : getMemberById db memberId = some m) :
    ∃ b : Bill,
      (createBill today db newId memberId mn bn amount d dueDate).bills = db.bills ++ [b] ∧
      (b.status = BillStatus.Overdue ↔ dueDate < today) ∧
      (b.status = BillStatus.Pending ↔ ¬ dueDate < today) ∧
      b.amount = amount ∧ b.memberId = memberId ∧
      getMemberById (createBill today db newId memberId mn bn amount d dueDate) memberId
        = some { m with dues := m.dues + amount } := by
  rw [createBill_eq_core]
  unfold createBillCore
  dsimp only
  have hm1 : getMemberById { db with bills := db.bills ++
      [{ id := newId, memberId := memberId, memberName := mn, billNumber := bn,
         amount := amount, description := d, dueDate := dueDate,
         status := if dueDate < today then BillStatus.Overdue else BillStatus.Pending,
         paymentDate := none, paymentMethod := none }] } memberId = some m := hm
  rw [hm1]
  refine ⟨_, rfl, ?_, ?_, rfl, rfl, ?_⟩
  · by_cases h : dueDate < today <;> simp [h]
  · by_cases h : dueDate < today <;> simp [h]
  · rw [getMemberById_updateMember, hm1]
    simp [applyPatch]

/-- Witness for C2: a member with dues 0 billed 500 due yesterday gets an
`Overdue` bill and dues 500. -/
theorem C2_createBill_witness :
    ∃ b : Bill,
      (createBill 10 ⟨[mkMember 0 0], [], []⟩ 1 0 "" "" 500 "" 9).bills = [] ++ [b] ∧
      (b.status = BillStatus.Overdue ↔ (9 : Int) < 10) ∧
      (b.status = BillStatus.Pending ↔ ¬ (9 : Int) < 10) ∧
      b.amount = 500 ∧ b.memberId = 0 ∧
      getMemberById (createBill 10 ⟨[mkMember 0 0], [], []⟩ 1 0 "" "" 500 "" 9) 0
        = some { mkMember 0 0 with dues := 0 + 500 } :=
  C2_createBill_status_and_dues 10 ⟨[mkMember 0 0], [], []⟩ 1 0 "" "" 500 "" 9
    (mkMember 0 0) (by decide)

/-- Looking up a member right after a dues-only update. -/
theorem getMemberById_after_dues_update (db : DB) (mid : Nat) (v : Int) (m : Member)
    (hm : getMemberById db mid = some m) :
    getMemberById (updateMember db mid { dues := some v }) mid = some { m with dues := v } := by
  rw [getMemberById_updateMember, hm]
  simp [applyPatch]

/-- Characterisation of `markBillAsPaid` when the bill and its member
exist. -/
theorem markBillAsPaid_found (today : Int) (db : DB) (billId : Nat) (pm : String)
    (bd : Bill) (hf : db.bills.find? (fun b => b.id == billId) = some bd)
    (m : Member) (hm : getMemberById db bd.memberId = some m) :
    markBillAsPaid today db billId pm
      = updateMember
          { db with bills := db.bills.map (fun b =>
              if b.id == billId then
                { b with status := BillStatus.Paid, paymentDate := some today,
                         paymentMethod := some pm }
              else b) }
          bd.memberId { dues := some (max 0 (m.dues - bd.amount)) } := by
  unfold markBillAsPaid
  rw [hf]
  dsimp only
  have hm1 : getMemberById { db with bills := db.bills.map (fun b =>
      if b.id == billId then
        { b with status := BillStatus.Paid, paymentDate := some today,
                 paymentMethod := some pm }
      else b) } bd.memberId = some m := hm
  rw [hm1]

/-- Setup for the C3 counterexample: member 0 has two pending bills of 5
each, dues 10 (the invariant state). -/
def c3Db : DB :=
  ⟨[mkMember 0 10], [mkBill 1 0 5 20 BillStatus.Pending, mkBill 2 0 5 20 BillStatus.Pending], []⟩

/-- C3 (counterexample): with two pending bills of 5 and dues 10, the
first `markBillAsPaid` on bill 1 leaves dues 5, and a second
`markBillAsPaid` on the same bill decrements again to dues 0 — the second
call is not idempotent on the member's dues. -/
theorem C3_counterexample :
    (getMemberById (markBillAsPaid 15 c3Db 1 "Cash") 0).map Member.dues = some 5 ∧
    (getMemberById (markBillAsPaid 15 (markBillAsPaid 15 c3Db 1 "Cash") 1 "Cash") 0).map
        Member.dues = some 0 ∧
    (getMemberById (markBillAsPaid 15 (markBillAsPaid 15 c3Db 1 "Cash") 1 "Cash") 0).map
        Member.dues ≠
      (getMemberById (markBillAsPaid 15 c3Db 1 "Cash") 0).map Member.dues := by
  refine ⟨by decide, by decide, by decide⟩

/-- C3 (amended): a second `markBillAsPaid` call on the same bill (same
day, same payment method) leaves every bill document unchanged, but
re-applies the dues decrement: if the member's dues were `d₁ = max(0,
dues − amount)` after the first call, they are `max(0, d₁ − amount)`
after the second — a double decrement whenever `d₁ > 0` and the amount is
positive, and idempotent only when `d₁ = 0` or the amount is
nonpositive. -/
theorem C3_markBillAsPaid_twice (today : Int) (db : DB) (billId : Nat) (pm : String)
    (bd : Bill) (hf : db.bills.find? (fun b => b.id == billId) = some bd)
    (m : Member) (hm : getMemberById db bd.memberId = some m) :
    (markBillAsPaid today (markBillAsPaid today db billId pm) billId pm).bills
        = (markBillAsPaid today db billId pm).bills ∧
    (getMemberById (markBillAsPaid today db billId pm) bd.memberId).map Member.dues
        = some (max 0 (m.dues - bd.amount)) ∧
    (getMemberById (markBillAsPaid today (markBillAsPaid today db billId pm) billId pm)
        bd.memberId).map Member.dues
      = some (max 0 (max 0 (m.dues - bd.amount) - bd.amount)) := by
  have h1 := markBillAsPaid_found today db billId pm bd hf m hm
  have hm2 : getMemberById (markBillAsPaid today db billId pm) bd.memberId
      = some { m with dues := max 0 (m.dues - bd.amount) } := by
    rw [h1]
    exact getMemberById_after_dues_update _ _ _ _ hm
  have hdues1 : (getMemberById (markBillAsPaid today db billId pm) bd.memberId).map Member.dues
      = some (max 0 (m.dues - bd.amount)) := by
    rw [hm2]
    rfl
  -- the bill found by the second call
  have hf2 : (markBillAsPaid today db billId pm).bills.find? (fun b => b.id == billId)
      = some { bd with status := BillStatus.Paid, paymentDate := some today,
                       paymentMethod := some pm } := by
    rw [h1]
    show (db.bills.map _).find? _ = _
    rw [find?_map_update Bill.id
      (fun b => { b with status := BillStatus.Paid, paymentDate := some today,
                         paymentMethod := some pm })
      (fun _ => rfl) billId db.bills, hf]
    rfl
  have h2 := markBillAsPaid_found today (markBillAsPaid today db billId pm) billId pm
    { bd with status := BillStatus.Paid, paymentDate := some today, paymentMethod := some pm }
    hf2 { m with dues := max 0 (m.dues - bd.amount) } hm2
  refine ⟨?_, hdues1, ?_⟩
  · rw [h2]
    show ((markBillAsPaid today db billId pm).bills.map _ : List Bill) = _
    rw [h1]
    show ((db.bills.map _).map _ : List Bill) = _
    rw [List.map_map]
    apply List.map_congr_left
    intro b _
    by_cases hb : b.id = billId
    · simp [hb]
    · simp [hb]
  · rw [h2]
    have hfinal := getMemberById_after_dues_update _ _
      (max 0 (({ m with dues := max 0 (m.dues - bd.amount) } : Member).dues -
        ({ bd with status := BillStatus.Paid, paymentDate := some today,
                   paymentMethod := some pm } : Bill).amount))
      { m with dues := max 0 (m.dues - bd.amount) } hm2
    exact congrArg (Option.map Member.dues) hfinal

/-- Witness for C3: the amended double-decrement behaviour on the
concrete two-bill state `c3Db`. -/
theorem C3_markBillAsPaid_twice_witness :
    (markBillAsPaid 15 (markBillAsPaid 15 c3Db 1 "Cash") 1 "Cash").bills
        = (markBillAsPaid 15 c3Db 1 "Cash").bills ∧
    (getMemberById (markBillAsPaid 15 c3Db 1 "Cash")
        (mkBill 1 0 5 20 BillStatus.Pending).memberId).map Member.dues
      = some (max 0 ((mkMember 0 10).dues - (mkBill 1 0 5 20 BillStatus.Pending).amount)) ∧
    (getMemberById (markBillAsPaid 15 (markBillAsPaid 15 c3Db 1 "Cash") 1 "Cash")
        (mkBill 1 0 5 20 BillStatus.Pending).memberId).map Member.dues
      = some (max 0 (max 0 ((mkMember 0 10).dues - (mkBill 1 0 5 20 BillStatus.Pending).amount)
          - (mkBill 1 0 5 20 BillStatus.Pending).amount)) :=
  C3_markBillAsPaid_twice 15 c3Db 1 "Cash" (mkBill 1 0 5 20 BillStatus.Pending) (by decide)
    (mkMember 0 10) (by decide)

/-- C4 (counterexample): one millisecond after midnight of day 0, the end
date denoting day 0 — the same calendar day as "today" — is classified
`Expired` by `memberService.calculateStatus`, because the function
compares raw instants without zeroing the time of day; the claim that an
end date equal to today yields `Active` fails. -/
theorem C4_counterexample :
    calculateStatus 1 (midnight 0) = MemberStatus.Expired ∧ dayOf (midnight 0) = dayOf 1 := by
  refine ⟨by decide, by decide⟩

/-- C4 (amended): `calculateStatus` returns `Expired` exactly when the
end-date instant is strictly before the current instant.  At calendar-day
granularity: end dates on a day strictly before today always yield
`Expired`, and end dates on a day strictly after today always yield
`Active`; but an end date equal to today yields `Expired` whenever the
current time is past the midnight instant the date string denotes (and
`Active` only at that exact instant). -/
theorem C4_calculateStatus (now d : Int) :
    (calculateStatus now (midnight d) = MemberStatus.Expired ↔ midnight d < now) ∧
    (d < dayOf now → calculateStatus now (midnight d) = MemberStatus.Expired) ∧
    (dayOf now < d → calculateStatus now (midnight d) = MemberStatus.Active) := by
  have hK : (0 : Int) < 86400000 := by norm_num
  have hfd : dayOf now = now / 86400000 := Int.fdiv_eq_ediv now (le_of_lt hK)
  refine ⟨?_, ?_, ?_⟩
  · by_cases h : midnight d < now <;> simp [calculateStatus, h]
  · intro h
    rw [hfd] at h
    have : d * 86400000 < now := Int.mul_lt_of_lt_ediv hK h
    simp [calculateStatus, midnight, msPerDay, this]
  · intro h
    rw [hfd] at h
    have : now < d * 86400000 := (Int.ediv_lt_iff_lt_mul hK).mp h
    have hn : ¬ midnight d < now := by
      simp only [midnight, msPerDay]
      omega
    simp [calculateStatus, hn]

/-- Witness for C4: day 1's midnight seen from an instant inside day 2 is
`Expired`, and seen from an instant inside day 0 is `Active`. -/
theorem C4_calculateStatus_witness :
    calculateStatus 172800005 (midnight 1) = MemberStatus.Expired ∧
    calculateStatus 5 (midnight 1) = MemberStatus.Active :=
  ⟨(C4_calculateStatus 172800005 1).2.1 (by decide),
   (C4_calculateStatus 5 1).2.2 (by decide)⟩

/-- C5 (counterexample): January 31 2025 plus one month lands on March 3
2025 under JavaScript `setMonth` day-overflow normalisation, so the
returned month is 3, not `(startMonth + duration) mod 12` (= February) —
the claim fails for month-end start days. -/
theorem C5_counterexample :
    calculateEndDate ⟨2025, 1, 31⟩ 1 = ⟨2025, 3, 3⟩ ∧
    (calculateEndDate ⟨2025, 1, 31⟩ 1).month ≠ (1 - 1 + 1) % 12 + 1 := by
  refine ⟨by decide, by decide⟩

/-- C5 (amended): whenever the start day-of-month exists in the target
month, `calculateEndDate` returns exactly the target month
`(startMonth − 1 + duration) mod 12 + 1` with the year carried by
`(startMonth − 1 + duration) / 12`, keeping the day; otherwise the day
overflows into the following month (as the counterexample shows). -/
theorem C5_calculateEndDate (start : Ymd) (duration : Nat)
    (h1 : 1 ≤ start.month) (h2 : start.month ≤ 12)
    (hday : start.day ≤ daysInMonth (start.year + ((start.month - 1 + duration) / 12 : Nat))
      ((start.month - 1 + duration) % 12 + 1)) :
    (calculateEndDate start duration).month = (start.month - 1 + duration) % 12 + 1 ∧
    (calculateEndDate start duration).year
        = start.year + ((start.month - 1 + duration) / 12 : Nat) ∧
    (calculateEndDate start duration).day = start.day := by
  unfold calculateEndDate
  dsimp only
  rw [if_pos hday]
  exact ⟨rfl, rfl, rfl⟩

/-- Witness for C5: January 15 2025 plus one month is February 15 2025. -/
theorem C5_calculateEndDate_witness :
    (calculateEndDate ⟨2025, 1, 15⟩ 1).month = (1 - 1 + 1) % 12 + 1 ∧
    (calculateEndDate ⟨2025, 1, 15⟩ 1).year = 2025 + ((1 - 1 + 1) / 12 : Nat) ∧
    (calculateEndDate ⟨2025, 1, 15⟩ 1).day = 15 :=
  C5_calculateEndDate ⟨2025, 1, 15⟩ 1 (by decide) (by decide) (by decide)

/-- C6: `feePackageService.assignPackage` overwrites exactly the member's
`membershipType`, `startDate`, `endDate` and `status` fields (the status
being `memberService.calculateStatus` of the computed end date), leaving
every other field of the member record, every other member, and the
`bills` collection unchanged. -/
theorem C6_assignPackage_frame (now : Int) (db : DB) (newId memberId : Nat)
    (mn pt pn : String) (amount : Int) (duration : Nat) (startDate endDate : Int)
    (m : Member) (hm : getMemberById db memberId = some m) :
    getMemberById (assignPackage now db newId memberId mn pt pn amount duration
        startDate endDate) memberId
      = some { m with membershipType := pt, startDate := startDate, endDate := endDate,
                      status := calculateStatus now (midnight endDate) } ∧
    (∀ j, j ≠ memberId →
      getMemberById (assignPackage now db newId memberId mn pt pn amount duration
          startDate endDate) j = getMemberById db j) ∧
    (assignPackage now db newId memberId mn pt pn amount duration startDate endDate).bills
      = db.bills := by
  unfold assignPackage
  dsimp only
  refine ⟨?_, ?_, rfl⟩
  · rw [getMemberById_updateMember]
    have hm1 : getMemberById { db with feePackages := db.feePackages ++
        [{ id := newId, memberId := memberId, memberName := mn, packageType := pt,
           packageName := pn, amount := amount, duration := duration,
           startDate := startDate, endDate := endDate,
           status := if endDate < dayOf now then PkgStatus.Expired else PkgStatus.Active }] }
        memberId = some m := hm
    rw [hm1]
    simp [applyPatch]
  · intro j hj
    rw [getMemberById_updateMember_ne _ _ _ _ hj]
    rfl

/-- Witness for C6: assigning a package to the sample member overwrites
exactly the four membership fields. -/
theorem C6_assignPackage_frame_witness :
    getMemberById (assignPackage 5 ⟨[mkMember 0 3], [], []⟩ 1 0 "" "gold" "Gold (6 Months)"
        5000 6 10 190) 0
      = some { (mkMember 0 3) with membershipType := "gold", startDate := 10,
                                   endDate := 190,
                                   status := calculateStatus 5 (midnight 190) } ∧
    (∀ j, j ≠ 0 →
      getMemberById (assignPackage 5 ⟨[mkMember 0 3], [], []⟩ 1 0 "" "gold" "Gold (6 Months)"
          5000 6 10 190) j = getMemberById ⟨[mkMember 0 3], [], []⟩ j) ∧
    (assignPackage 5 ⟨[mkMember 0 3], [], []⟩ 1 0 "" "gold" "Gold (6 Months)"
        5000 6 10 190).bills = (⟨[mkMember 0 3], [], []⟩ : DB).bills :=
  C6_assignPackage_frame 5 ⟨[mkMember 0 3], [], []⟩ 1 0 "" "gold" "Gold (6 Months)"
    5000 6 10 190 (mkMember 0 3) (by decide)

/-! ## Email normalisation lemmas -/

theorem char_toNat_ofNat {n : Nat} (h : n.isValidChar) : (Char.ofNat n).toNat = n := by
  rw [Char.ofNat, dif_pos h]
  rfl

theorem toLower_idem (c : Char) : c.toLower.toLower = c.toLower := by
  unfold Char.toLower
  by_cases h : c.toNat ≥ 65 ∧ c.toNat ≤ 90
  · rw [if_pos h]
    have hv : (c.toNat + 32).isValidChar := Or.inl (by omega)
    have ht : (Char.ofNat (c.toNat + 32)).toNat = c.toNat + 32 := char_toNat_ofNat hv
    rw [ht, if_neg (by omega)]
  · rw [if_neg h, if_neg h]

theorem isWsChar_toLower (c : Char) : isWsChar c.toLower = isWsChar c := by
  unfold Char.toLower
  by_cases h : c.toNat ≥ 65 ∧ c.toNat ≤ 90
  · rw [if_pos h]
    have hv : (c.toNat + 32).isValidChar := Or.inl (by omega)
    have ht : (Char.ofNat (c.toNat + 32)).toNat = c.toNat + 32 := char_toNat_ofNat hv
    have h1 : isWsChar (Char.ofNat (c.toNat + 32)) = false := by
      simp only [isWsChar, ht, Bool.or_eq_false_iff, beq_eq_false_iff_ne]
      omega
    have h2 : isWsChar c = false := by
      simp only [isWsChar, Bool.or_eq_false_iff, beq_eq_false_iff_ne]
      omega
    rw [h1, h2]
  · rw [if_neg h]

theorem dropWhile_map_toLower (u : List Char) (hu : u.dropWhile isWsChar = u) :
    (u.map Char.toLower).dropWhile isWsChar = u.map Char.toLower := by
  cases u with
  | nil => rfl
  | cons a u' =>
    rw [List.dropWhile_cons] at hu
    rw [List.map_cons, List.dropWhile_cons]
    by_cases hpa : isWsChar a = true
    · exfalso
      rw [if_pos hpa] at hu
      have hlen := congrArg List.length hu
      have hle : (u'.dropWhile isWsChar).length ≤ u'.length :=
        (List.dropWhile_suffix isWsChar :
          u'.dropWhile isWsChar <:+ u').sublist.length_le
      simp at hlen
      omega
    · rw [if_neg (by simp [isWsChar_toLower]; simpa using hpa)]

theorem dropWhile_trimChars (l : List Char) :
    (trimChars l).dropWhile isWsChar = trimChars l := by
  unfold trimChars
  cases e : (l.dropWhile isWsChar).rdropWhile isWsChar with
  | nil => rfl
  | cons a t' =>
    rw [List.dropWhile_cons]
    obtain ⟨t, ht⟩ := List.rdropWhile_prefix isWsChar (l.dropWhile isWsChar)
    have hu : (l.dropWhile isWsChar).dropWhile isWsChar = l.dropWhile isWsChar :=
      List.dropWhile_idempotent isWsChar l
    rw [e] at ht
    rw [← ht, List.cons_append, List.dropWhile_cons] at hu
    by_cases hpa : isWsChar a = true
    · rw [if_pos hpa] at hu
      exfalso
      have hle : ((t' ++ t).dropWhile isWsChar).length ≤ (t' ++ t).length :=
        (List.dropWhile_suffix isWsChar :
          (t' ++ t).dropWhile isWsChar <:+ t' ++ t).sublist.length_le
      rw [hu] at hle
      simp at hle
    · rw [if_neg hpa]

theorem rdropWhile_trimChars (l : List Char) :
    (trimChars l).rdropWhile isWsChar = trimChars l :=
  List.rdropWhile_idempotent isWsChar (l.dropWhile isWsChar)

theorem rdropWhile_map_toLower (u : List Char) (hu : u.rdropWhile isWsChar = u) :
    (u.map Char.toLower).rdropWhile isWsChar = u.map Char.toLower := by
  have hrev : u.reverse.dropWhile isWsChar = u.reverse := by
    have h := congrArg List.reverse hu
    rw [List.rdropWhile, List.reverse_reverse] at h
    exact h
  rw [List.rdropWhile, ← List.map_reverse, dropWhile_map_toLower _ hrev,
    List.map_reverse, List.reverse_reverse]

theorem trimChars_map_toLower (l : List Char) :
    trimChars ((trimChars l).map Char.toLower) = (trimChars l).map Char.toLower := by
  show List.rdropWhile isWsChar (List.dropWhile isWsChar _) = _
  rw [dropWhile_map_toLower _ (dropWhile_trimChars l)]
  exact rdropWhile_map_toLower _ (rdropWhile_trimChars l)

theorem map_toLower_idem (u : List Char) :
    (u.map Char.toLower).map Char.toLower = u.map Char.toLower := by
  rw [List.map_map]
  exact List.map_congr_left (fun c _ => toLower_idem c)

theorem normalizeEmail_idem (s : String) :
    normalizeEmail (normalizeEmail s) = normalizeEmail s := by
  unfold normalizeEmail
  congr 1
  show ((trimChars ((trimChars s.data).map Char.toLower)).map Char.toLower) = _
  rw [trimChars_map_toLower, map_toLower_idem]

theorem digitChar_isDigit_of_lt (m : Nat) (h : m < 10) : (Nat.digitChar m).isDigit = true := by
  have hall : ∀ k, k < 10 → (Nat.digitChar k).isDigit = true := by decide
  exact hall m h

/-- C7: `accountService.createAccount` fails with the duplicate-email
error exactly when some existing account's `normalizedEmail` equals the
trimmed, lower-cased form of the given email (so casing and surrounding
whitespace do not matter); otherwise it persists a new account whose
`accountId` is `{PREFIX}-{6 digits of the random draw}`, with prefix
ADM/MEM/USR by role. -/
theorem C7_createAccount_email_unique (accounts : List Account) (freshId r : Nat)
    (fn ln email pw : String) (role : AccountRole) :
    ((∃ e, createAccount accounts freshId r fn ln email pw role = Except.error e) ↔
      ∃ a ∈ accounts, a.normalizedEmail = normalizeEmail email) ∧
    ((¬ ∃ a ∈ accounts, a.normalizedEmail = normalizeEmail email) →
      ∃ acct : Account,
        createAccount accounts freshId r fn ln email pw role
          = Except.ok (accounts ++ [acct], acct.accountId) ∧
        acct.accountId = prefixForRole role ++ "-" ++ sixDigits r ∧
        acct.email = normalizeEmail email ∧ acct.normalizedEmail = normalizeEmail email) ∧
    (sixDigits r).length = 6 ∧
    (∀ c ∈ (sixDigits r).data, c.isDigit) ∧
    prefixForRole AccountRole.admin = "ADM" ∧ prefixForRole AccountRole.member = "MEM" ∧
    prefixForRole AccountRole.user = "USR" := by
  have hdig : ∀ c ∈ (sixDigits r).data, c.isDigit := by
    intro c hc
    simp only [sixDigits, List.mem_cons, List.not_mem_nil, or_false] at hc
    rcases hc with rfl | rfl | rfl | rfl | rfl | rfl <;>
      exact digitChar_isDigit_of_lt _ (Nat.mod_lt _ (by norm_num))
  have hcond : ((accounts.find? (fun a =>
      a.normalizedEmail == normalizeEmail (normalizeEmail email))).isSome = true) ↔
      ∃ a ∈ accounts, a.normalizedEmail = normalizeEmail email := by
    rw [normalizeEmail_idem, List.find?_isSome]
    simp
  unfold createAccount
  dsimp only
  by_cases hex : ∃ a ∈ accounts, a.normalizedEmail = normalizeEmail email
  · rw [if_pos (hcond.mpr hex)]
    refine ⟨⟨fun _ => hex, fun _ => ⟨_, rfl⟩⟩, fun h => absurd hex h, rfl, hdig, rfl, rfl, rfl⟩
  · rw [if_neg (fun hc => hex (hcond.mp hc))]
    refine ⟨⟨fun ⟨e, he⟩ => absurd he (by simp), fun h => absurd h hex⟩,
      fun _ => ⟨_, rfl, rfl, rfl, rfl⟩, rfl, hdig, rfl, rfl, rfl⟩

/-- An existing account for the C7 witness. -/
def c7Acct : Account :=
  { id := 0, accountId := "MEM-000001", firstName := "x", lastName := "y",
    email := "a@b.c", normalizedEmail := "a@b.c", password := "p",
    role := AccountRole.member }

/-- Witness for C7: creating an account with email `" A@B.C "` fails
against an existing `"a@b.c"` account, and succeeds with an
`ADM-`-prefixed six-digit id when no account exists. -/
theorem C7_createAccount_email_unique_witness :
    (∃ e, createAccount [c7Acct] 1 42 "f" "l" " A@B.C " "pw" AccountRole.admin
      = Except.error e) ∧
    (∃ acct : Account,
      createAccount [] 1 42 "f" "l" " A@B.C " "pw" AccountRole.admin
        = Except.ok ([] ++ [acct], acct.accountId) ∧
      acct.accountId = prefixForRole AccountRole.admin ++ "-" ++ sixDigits 42 ∧
      acct.email = normalizeEmail " A@B.C " ∧
      acct.normalizedEmail = normalizeEmail " A@B.C ") :=
  ⟨((C7_createAccount_email_unique [c7Acct] 1 42 "f" "l" " A@B.C " "pw"
        AccountRole.admin).1.mpr
      ⟨c7Acct, List.mem_singleton_self _, by decide⟩),
   ((C7_createAccount_email_unique [] 1 42 "f" "l" " A@B.C " "pw"
        AccountRole.admin).2.1
      (by simp))⟩

/-! ## Supplement order lemmas -/

theorem find?_orderStep_ne (sups : List Supplement) (item : OrderItem) (tsid : Nat)
    (hne : item.supplementId ≠ tsid) :
    findSupplement (orderStep sups item) tsid = findSupplement sups tsid := by
  unfold orderStep
  cases hf : findSupplement sups item.supplementId with
  | none => rfl
  | some s =>
      exact find?_map_update_ne Supplement.id
        (fun t => { t with stock := max 0 (s.stock - item.quantity) })
        (fun _ => rfl) item.supplementId tsid (fun hc => hne hc.symm) sups

theorem find?_foldl_orderStep_ne (items : List OrderItem) (sups : List Supplement) (tsid : Nat)
    (h : ∀ it ∈ items, it.supplementId ≠ tsid) :
    findSupplement (items.foldl orderStep sups) tsid = findSupplement sups tsid := by
  induction items generalizing sups with
  | nil => rfl
  | cons it its ih =>
      rw [List.foldl_cons, ih _ (fun x hx => h x (List.mem_cons_of_mem _ hx)),
        find?_orderStep_ne _ _ _ (h it (List.mem_cons_self _ _))]

theorem find?_orderStep_self (sups : List Supplement) (item : OrderItem) (s : Supplement)
    (hf : findSupplement sups item.supplementId = some s) :
    findSupplement (orderStep sups item) item.supplementId
      = some { s with stock := max 0 (s.stock - item.quantity) } := by
  unfold orderStep
  rw [hf]
  show (sups.map _).find? _ = _
  have hf' : List.find? (fun x => x.id == item.supplementId) sups = some s := hf
  rw [find?_map_update Supplement.id
    (fun t => { t with stock := max 0 (s.stock - item.quantity) })
    (fun _ => rfl) item.supplementId sups, hf']
  rfl

/-- C8: `supplementService.createOrder` clamps stock at zero — for a line
item whose quantity exceeds the supplement's current stock the new stock
is `max(0, stock − quantity) = 0`, never negative — and the order record
is still created with status `Completed`, not rejected. -/
theorem C8_createOrder_clamps (db : SupDB) (newId memberId : Nat) (mn : String)
    (items : List OrderItem) (total orderDate : Int) (pm : String)
    (hdist : items.Pairwise (fun a b => a.supplementId ≠ b.supplementId))
    (item : OrderItem) (hitem : item ∈ items)
    (s : Supplement) (hs : findSupplement db.supplements item.supplementId = some s)
    (hex : s.stock < item.quantity) :
    findSupplement (createOrder db newId memberId mn items total orderDate pm).supplements
        item.supplementId = some { s with stock := 0 } ∧
    (createOrder db newId memberId mn items total orderDate pm).orders
      = db.orders ++ [{ id := newId, memberId := memberId, memberName := mn, items := items,
                        totalAmount := total, status := OrderStatus.Completed,
                        orderDate := orderDate, paymentMethod := pm }] := by
  constructor
  · obtain ⟨l1, l2, rfl⟩ := List.append_of_mem hitem
    rw [List.pairwise_append] at hdist
    obtain ⟨hp1, hp2, hcross⟩ := hdist
    have h1 : ∀ it ∈ l1, it.supplementId ≠ item.supplementId :=
      fun it hit => hcross it hit item (List.mem_cons_self _ _)
    have h2 : ∀ it ∈ l2, item.supplementId ≠ it.supplementId :=
      (List.pairwise_cons.mp hp2).1
    show findSupplement ((l1 ++ item :: l2).foldl orderStep db.supplements) _ = _
    rw [List.foldl_append, List.foldl_cons,
      find?_foldl_orderStep_ne l2 _ _ (fun it hit hc => (h2 it hit) hc.symm)]
    have hs1 : findSupplement (l1.foldl orderStep db.supplements) item.supplementId = some s := by
      rw [find?_foldl_orderStep_ne l1 _ _ h1]
      exact hs
    rw [find?_orderStep_self _ _ _ hs1]
    have hmax : max 0 (s.stock - item.quantity) = 0 := max_eq_left (by omega)
    rw [hmax]
  · rfl

/-- The supplement of the C8 witness: stock 2. -/
def c8Sup : Supplement :=
  { id := 10, name := "", brand := "", category := "", description := "",
    price := 100, stock := 2 }

/-- The order line of the C8 witness: 3 units of supplement 10. -/
def c8Item : OrderItem :=
  { supplementId := 10, supplementName := "", quantity := 3, price := 100 }

/-- Witness for C8: ordering 3 units with stock 2 leaves stock 0 and
still records the completed order. -/
theorem C8_createOrder_clamps_witness :
    findSupplement (createOrder ⟨[c8Sup], []⟩ 1 0 "" [c8Item] 300 7 "Cash").supplements
        c8Item.supplementId = some { c8Sup with stock := 0 } ∧
    (createOrder ⟨[c8Sup], []⟩ 1 0 "" [c8Item] 300 7 "Cash").orders
      = [] ++ [{ id := 1, memberId := 0, memberName := "", items := [c8Item],
                 totalAmount := 300, status := OrderStatus.Completed, orderDate := 7,
                 paymentMethod := "Cash" }] :=
  C8_createOrder_clamps ⟨[c8Sup], []⟩ 1 0 "" [c8Item] 300 7 "Cash"
    (List.pairwise_singleton _ _) c8Item (List.mem_singleton_self _) c8Sup (by decide) (by decide)

/-- C9: `markBillAsPaid` and `deleteBill` with a bill id matching no
existing bill complete without error and leave the whole state — every
bill document and every member's dues — unchanged (silent no-op). -/
theorem C9_unknown_billId_noop (today : Int) (db : DB) (billId : Nat) (pm : String)
    (h : ∀ b ∈ db.bills, b.id ≠ billId) :
    markBillAsPaid today db billId pm = db ∧ deleteBill db billId = db := by
  have hf : db.bills.find? (fun b => b.id == billId) = none :=
    List.find?_eq_none.mpr (fun b hb => by simpa using h b hb)
  constructor
  · unfold markBillAsPaid
    rw [hf]
  · unfold deleteBill
    rw [hf]

/-- Witness for C9: bill id 99 matches neither of the two stored bills,
so both operations return the state unchanged. -/
theorem C9_unknown_billId_noop_witness :
    markBillAsPaid 15 c3Db 99 "Cash" = c3Db ∧ deleteBill c3Db 99 = c3Db :=
  C9_unknown_billId_noop 15 c3Db 99 "Cash" (by decide)

theorem applyAccountUpdates_id (u : AccountUpdates) (a : Account) :
    (applyAccountUpdates u a).id = a.id := rfl

/-- C10: a successful `accountService.updateAccount` whose payload has an
empty-string or absent password leaves the stored password unchanged,
while every other provided field is applied (names and role verbatim, the
email in normalised form). -/
theorem C10_updateAccount_password (accounts : List Account) (id : Nat) (u : AccountUpdates)
    (hpw : u.password = none ∨ u.password = some "")
    (a : Account) (ha : accounts.find? (fun x => x.id == id) = some a)
    (accs' : List Account) (hok : updateAccount accounts id u = Except.ok accs') :
    accs'.find? (fun x => x.id == id) = some (applyAccountUpdates u a) ∧
    (applyAccountUpdates u a).password = a.password ∧
    (applyAccountUpdates u a).firstName = u.firstName.getD a.firstName ∧
    (applyAccountUpdates u a).lastName = u.lastName.getD a.lastName ∧
    (applyAccountUpdates u a).role = u.role.getD a.role ∧
    (applyAccountUpdates u a).email = (u.email.map normalizeEmail).getD a.email ∧
    (applyAccountUpdates u a).normalizedEmail
      = (u.email.map normalizeEmail).getD a.normalizedEmail := by
  have hsome : (accounts.find? (fun x => x.id == id)).isSome = true := by
    rw [ha]; rfl
  have haccs : accs' = accounts.map (fun x => if x.id == id then applyAccountUpdates u x else x) := by
    unfold updateAccount at hok
    cases hmail : u.email with
    | none =>
        rw [hmail] at hok
        dsimp only at hok
        rw [if_pos hsome] at hok
        exact (Except.ok.injEq _ _).mp hok.symm |>.symm ▸ rfl
    | some e =>
        rw [hmail] at hok
        dsimp only at hok
        cases hdup : accounts.find? (fun x => x.normalizedEmail == normalizeEmail e) with
        | none =>
            rw [hdup] at hok
            dsimp only at hok
            rw [if_pos hsome] at hok
            exact (Except.ok.injEq _ _).mp hok.symm |>.symm ▸ rfl
        | some ex =>
            rw [hdup] at hok
            dsimp only at hok
            by_cases hex : ex.id ≠ id
            · rw [if_pos hex] at hok
              cases hok
            · rw [if_neg hex] at hok
              dsimp only at hok
              rw [if_pos hsome] at hok
              exact (Except.ok.injEq _ _).mp hok.symm |>.symm ▸ rfl
  have hfind : accs'.find? (fun x => x.id == id) = some (applyAccountUpdates u a) := by
    rw [haccs, find?_map_update Account.id (applyAccountUpdates u)
      (applyAccountUpdates_id u) id accounts, ha]
    rfl
  have hpw' : (applyAccountUpdates u a).password = a.password := by
    unfold applyAccountUpdates
    rcases hpw with h | h <;> rw [h] <;> simp
  exact ⟨hfind, hpw', rfl, rfl, rfl, rfl, rfl⟩

/-- The stored account of the C10 witness. -/
def c10Acct : Account :=
  { id := 3, accountId := "USR-000007", firstName := "f", lastName := "l",
    email := "u@x.y", normalizedEmail := "u@x.y", password := "secret",
    role := AccountRole.user }

/-- The update payload of the C10 witness: empty password, new first
name, new email. -/
def c10Upd : AccountUpdates :=
  { firstName := some "g", password := some "", email := some " New@X.Y " }

/-- Witness for C10: the empty-string password is not written, the other
provided fields are. -/
theorem C10_updateAccount_password_witness :
    ((updateAccount [c10Acct] 3 c10Upd).toOption.getD []).find? (fun x => x.id == 3)
        = some (applyAccountUpdates c10Upd c10Acct) ∧
    (applyAccountUpdates c10Upd c10Acct).password = c10Acct.password ∧
    (applyAccountUpdates c10Upd c10Acct).firstName = c10Upd.firstName.getD c10Acct.firstName ∧
    (applyAccountUpdates c10Upd c10Acct).lastName = c10Upd.lastName.getD c10Acct.lastName ∧
    (applyAccountUpdates c10Upd c10Acct).role = c10Upd.role.getD c10Acct.role ∧
    (applyAccountUpdates c10Upd c10Acct).email
        = (c10Upd.email.map normalizeEmail).getD c10Acct.email ∧
    (applyAccountUpdates c10Upd c10Acct).normalizedEmail
      = (c10Upd.email.map normalizeEmail).getD c10Acct.normalizedEmail :=
  C10_updateAccount_password [c10Acct] 3 c10Upd (Or.inr rfl) c10Acct (by decide)
    ((updateAccount [c10Acct] 3 c10Upd).toOption.getD []) (by rfl)
